import Mathlib

/-!
# Verification of the numeric-token extraction engine

A shallow embedding of `extractNumbersFromText` from `src/utils/ocrProcessor.tsx`:
the pattern catalog, the match collector, the normalizer/validator, the conflict
resolver, and the ranker/truncator, together with theorems checking the spec's
claims about them.

Strings are modelled as `List Char`; the JavaScript regexes of the catalog are
transcribed into a small regex AST and executed by a fuel-bounded backtracking
engine whose preference order (leftmost match, greedy repetition with
backtracking) mirrors the JavaScript one.
-/

set_option maxHeartbeats 1000000

namespace OcrApp

/-! ## Character classes (JavaScript semantics, BMP code points) -/

/-- The whitespace set recognised by JavaScript `\s`, `trim` and friends. -/
def jsSpaceChars : List Char :=
  [' ', '\t', '\n', '\r', '\x0b', '\x0c',
   '\u00A0', '\u1680', '\u2000', '\u2001', '\u2002', '\u2003', '\u2004',
   '\u2005', '\u2006', '\u2007', '\u2008', '\u2009', '\u200A',
   '\u2028', '\u2029', '\u202F', '\u205F', '\u3000', '\uFEFF']

def jsSpace (c : Char) : Bool := jsSpaceChars.contains c

/-- JavaScript `\w`: `[A-Za-z0-9_]`. -/
def jsWord (c : Char) : Bool :=
  c.isDigit || ('a' ≤ c && c ≤ 'z') || ('A' ≤ c && c ≤ 'Z') || c = '_'

/-- The currency marks of the catalog: `[$€£¥₹]`. -/
def currencyChar (c : Char) : Bool := ['$', '€', '£', '¥', '₹'].contains c

/-- The semantic-symbol test of the normalizer: `/[$€£¥₹%°]/`. -/
def symbolChar (c : Char) : Bool := ['$', '€', '£', '¥', '₹', '%', '°'].contains c

/-- The character class kept by the cleaning step: `[\d\s.,\-+()$€£¥₹%°]`. -/
def allowedChar (c : Char) : Bool :=
  c.isDigit || jsSpace c || ['.', ',', '-', '+', '(', ')', '$', '€', '£', '¥', '₹', '%', '°'].contains c

/-! ## The cleaning step (lines 235–238 of `ocrProcessor.tsx`)

`text.replace(/[^\d\s.,\-+()$€£¥₹%°]/g, ' ').replace(/\s+/g, ' ').trim()` -/

/-- The step `replace(/\s+/g, ' ')`: collapse every maximal whitespace run to one space.
The boolean argument records whether the previous character was whitespace. -/
def collapseAux : Bool → List Char → List Char
  | _, [] => []
  | prevSp, c :: cs =>
    if jsSpace c then
      (if prevSp then collapseAux true cs else ' ' :: collapseAux true cs)
    else c :: collapseAux false cs

def collapseWs (l : List Char) : List Char := collapseAux false l

/-- JavaScript `String.prototype.trim`. -/
def jsTrim (l : List Char) : List Char :=
  ((l.dropWhile jsSpace).reverse.dropWhile jsSpace).reverse

/-- The whole cleaning step applied to the input text. -/
def cleanChars (l : List Char) : List Char :=
  jsTrim (collapseWs (l.map (fun c => if allowedChar c then c else ' ')))

def cleanStr (text : String) : String := (cleanChars text.data).asString

/-! ## A small regex AST and backtracking engine

Only the constructs the catalog's ten regexes need: character classes,
concatenation, bounded/unbounded greedy repetition, and the word boundary
assertion `\b`. -/

inductive RE where
  | cls : (Char → Bool) → RE
  | seq : RE → RE → RE
  | rep : RE → Nat → Option Nat → RE
  | wordB : RE

def wordAt (s : List Char) (i : Nat) : Bool :=
  if h : i < s.length then jsWord (s.get ⟨i, h⟩) else false

/-- Word boundary: `\b` holds at `i` when exactly one side is a word character
(out of range counts as non-word). -/
def boundaryAt (s : List Char) (i : Nat) : Bool :=
  (if i = 0 then false else wordAt s (i - 1)) != wordAt s i

/-- All end positions of a match of `re` starting at `i`, in the backtracking
engine's preference order (greedy repetitions try a further iteration first).
The head of the list is the end position JavaScript would pick.  `fuel` bounds
the recursion; `reFuel` below always suffices for the concrete catalog. -/
def reEnds (s : List Char) : Nat → RE → Nat → List Nat
  | 0, _, _ => []
  | fuel + 1, re, i =>
    match re with
    | .cls p => if h : i < s.length then (if p (s.get ⟨i, h⟩) then [i + 1] else []) else []
    | .wordB => if boundaryAt s i then [i] else []
    | .seq a b => ((reEnds s fuel a i).map (fun j => reEnds s fuel b j)).flatten
    | .rep a mn mx =>
      match mx with
      | some 0 => if mn = 0 then [i] else []
      | some (m + 1) =>
        let tails := ((reEnds s fuel a i).map
          (fun j => reEnds s fuel (.rep a (mn - 1) (some m)) j)).flatten
        if mn = 0 then tails ++ [i] else tails
      | none =>
        let tails := ((reEnds s fuel a i).map
          (fun j => reEnds s fuel (.rep a (mn - 1) none) j)).flatten
        if mn = 0 then tails ++ [i] else tails

def reSize : RE → Nat
  | .cls _ => 1
  | .wordB => 1
  | .seq a b => reSize a + reSize b + 1
  | .rep a _ _ => reSize a + 1

def reFuel (s : List Char) (re : RE) : Nat := (s.length + 2) * (reSize re + 2)

/-- The end of the JavaScript match of `re` at position `i`, if any. -/
def reMatchAt (s : List Char) (re : RE) (i : Nat) : Option Nat :=
  (reEnds s (reFuel s re) re i).head?

/-- All matches of a `/g` regex: scan left to right, resume after each match. -/
def findAllFrom (s : List Char) (re : RE) : Nat → Nat → List (Nat × Nat)
  | _, 0 => []
  | i, fuel + 1 =>
    if i > s.length then []
    else
      match reMatchAt s re i with
      | some e =>
        if i < e then (i, e) :: findAllFrom s re e fuel
        else (i, e) :: findAllFrom s re (i + 1) fuel
      | none => findAllFrom s re (i + 1) fuel

def findAll (s : List Char) (re : RE) : List (Nat × Nat) :=
  findAllFrom s re 0 (s.length + 1)

/-- The matched substrings, as `String.prototype.match` with `/g` returns them. -/
def reMatches (re : RE) (s : List Char) : List String :=
  (findAll s re).map (fun p => ((s.drop p.1).take (p.2 - p.1)).asString)

/-! ## The pattern catalog (lines 241–292 of `ocrProcessor.tsx`)

Each regex is transcribed node by node; `priority` is the `priority` field. -/

def digitC : RE := .cls Char.isDigit
def wsStar : RE := .rep (.cls jsSpace) 0 none

/-- The fragment `(?:[.,]\d+)?` — the optional decimal tail used by several patterns. -/
def fracOpt : RE := .rep (.seq (.cls (fun c => c = '.' || c = ',')) (.rep digitC 1 none)) 0 (some 1)

/-- The fragment `(?:\.\d+)?` — optional dot-decimal tail (percent and temperature). -/
def dotFracOpt : RE := .rep (.seq (.cls (fun c => c = '.')) (.rep digitC 1 none)) 0 (some 1)

/-- Currency: `/[$€£¥₹]\s*\d{1,3}(?:[,.']\d{3})*(?:[.,]\d{1,4})?/gi` -/
def currencyRE : RE :=
  .seq (.cls currencyChar) (.seq wsStar (.seq (.rep digitC 1 (some 3))
    (.seq (.rep (.seq (.cls (fun c => c = ',' || c = '.' || c = '\'')) (.rep digitC 3 (some 3))) 0 none)
      (.rep (.seq (.cls (fun c => c = '.' || c = ',')) (.rep digitC 1 (some 4))) 0 (some 1)))))

/-- Percentages: `/\d+(?:\.\d+)?\s*%/g` -/
def percentRE : RE :=
  .seq (.rep digitC 1 none) (.seq dotFracOpt (.seq wsStar (.cls (fun c => c = '%'))))

/-- Temperature: `/\d+(?:\.\d+)?\s*°[CF]?/g` -/
def temperatureRE : RE :=
  .seq (.rep digitC 1 none) (.seq dotFracOpt (.seq wsStar
    (.seq (.cls (fun c => c = '°')) (.rep (.cls (fun c => c = 'C' || c = 'F')) 0 (some 1)))))

/-- Thousand separators (US): `/\b\d{1,3}(?:,\d{3})+(?:\.\d{1,4})?\b/g` -/
def usSepRE : RE :=
  .seq .wordB (.seq (.rep digitC 1 (some 3))
    (.seq (.rep (.seq (.cls (fun c => c = ',')) (.rep digitC 3 (some 3))) 1 none)
      (.seq (.rep (.seq (.cls (fun c => c = '.')) (.rep digitC 1 (some 4))) 0 (some 1)) .wordB)))

/-- Thousand separators (EU): `/\b\d{1,3}(?:\.\d{3})+(?:,\d{1,4})?\b/g` -/
def euSepRE : RE :=
  .seq .wordB (.seq (.rep digitC 1 (some 3))
    (.seq (.rep (.seq (.cls (fun c => c = '.')) (.rep digitC 3 (some 3))) 1 none)
      (.seq (.rep (.seq (.cls (fun c => c = ',')) (.rep digitC 1 (some 4))) 0 (some 1)) .wordB)))

/-- Decimal numbers: `/\b\d*\.\d+\b/g` -/
def decimalRE : RE :=
  .seq .wordB (.seq (.rep digitC 0 none)
    (.seq (.cls (fun c => c = '.')) (.seq (.rep digitC 1 none) .wordB)))

/-- Large whole numbers: `/\b\d{4,}\b/g` -/
def largeWholeRE : RE := .seq .wordB (.seq (.rep digitC 4 none) .wordB)

/-- Medium numbers: `/\b\d{2,3}\b/g` -/
def mediumRE : RE := .seq .wordB (.seq (.rep digitC 2 (some 3)) .wordB)

/-- Numbers in parentheses: `/\(\s*\d+(?:[.,]\d+)?\s*\)/g` -/
def parenRE : RE :=
  .seq (.cls (fun c => c = '(')) (.seq wsStar (.seq (.rep digitC 1 none)
    (.seq fracOpt (.seq wsStar (.cls (fun c => c = ')'))))))

/-- Signed numbers: `/[+-]\s*\d+(?:[.,]\d+)?/g` -/
def signedRE : RE :=
  .seq (.cls (fun c => c = '+' || c = '-')) (.seq wsStar (.seq (.rep digitC 1 none) fracOpt))

/-- A catalog entry: the matcher models `cleanText.match(regex)` inside the
`try` block — it may fail, and a failure is caught and skipped (lines 297–341). -/
structure PatternDef where
  pname : String
  matcher : String → Except String (List String)
  priority : Nat

def patterns : List PatternDef :=
  [⟨"Currency", fun s => .ok (reMatches currencyRE s.data), 1⟩,
   ⟨"Percentages", fun s => .ok (reMatches percentRE s.data), 1⟩,
   ⟨"Temperature", fun s => .ok (reMatches temperatureRE s.data), 1⟩,
   ⟨"Thousand separators (US)", fun s => .ok (reMatches usSepRE s.data), 2⟩,
   ⟨"Thousand separators (EU)", fun s => .ok (reMatches euSepRE s.data), 2⟩,
   ⟨"Decimal numbers", fun s => .ok (reMatches decimalRE s.data), 3⟩,
   ⟨"Large whole numbers", fun s => .ok (reMatches largeWholeRE s.data), 3⟩,
   ⟨"Medium numbers", fun s => .ok (reMatches mediumRE s.data), 4⟩,
   ⟨"Numbers in parentheses", fun s => .ok (reMatches parenRE s.data), 2⟩,
   ⟨"Signed numbers", fun s => .ok (reMatches signedRE s.data), 2⟩]

/-! ## Normalizer / validator (lines 303–328) -/

/-- The step `match.trim()` followed by the parenthesis unwrap of lines 307–309. -/
def unwrapParens (l : List Char) : List Char :=
  if l.head? = some '(' ∧ l.getLast? = some ')' then jsTrim (l.drop 1).dropLast else l

def cleanedOf (m : String) : List Char := unwrapParens (jsTrim m.data)

/-- The characters kept by `replace(/[^\d.,\-+]/g, '')`. -/
def numericChar (c : Char) : Bool := c.isDigit || ['.', ',', '-', '+'].contains c

/-- The step `replace(/,(\d{3})/g, '$1')`: drop each comma directly followed by three digits,
resuming the scan after the three digits. -/
def commaGroupCollapse : List Char → List Char
  | [] => []
  | ',' :: a :: b :: c :: rest =>
    if a.isDigit && b.isDigit && c.isDigit then a :: b :: c :: commaGroupCollapse rest
    else ',' :: commaGroupCollapse (a :: b :: c :: rest)
  | c :: rest => c :: commaGroupCollapse rest

/-- The step `replace(',', '.')` with a string argument: only the first occurrence. -/
def firstCommaToDot : List Char → List Char
  | [] => []
  | ',' :: rest => '.' :: rest
  | c :: rest => c :: firstCommaToDot rest

/-- The test `!isNaN(parseFloat(t)) && isFinite(parseFloat(t))` for a string drawn from
the characters `0-9 . , + -`: `parseFloat` returns a finite value exactly when
the string starts with an optional sign, then a digit or a dot followed by a
digit. -/
def parseFloatFinite (l : List Char) : Bool :=
  let l' := match l with
    | '+' :: r => r
    | '-' :: r => r
    | r => r
  match l' with
  | '.' :: d :: _ => d.isDigit
  | c :: _ => c.isDigit
  | [] => false

/-- The value `parseInt` returns on an all-digit string. -/
def natOfDigits (l : List Char) : Nat :=
  l.foldl (fun a c => a * 10 + (c.toNat - '0'.toNat)) 0

def testNumberOf (m : String) : List Char :=
  firstCommaToDot (commaGroupCollapse ((cleanedOf m).filter numericChar))

/-! ## Conflict resolver (lines 294, 311–336)

The JavaScript `Map` is an association list in insertion order: `Map.set` on an
existing key updates it in place, a new key goes to the end. -/

/-- Lines 330–334: keep the smaller priority for an existing key, append a new key. -/
def insertMin (fm : List (String × Nat)) (k : String) (p : Nat) : List (String × Nat) :=
  if fm.any (fun e => e.1 = k) then
    fm.map (fun e => if e.1 = k then (e.1, if p < e.2 then p else e.2) else e)
  else fm ++ [(k, p)]

/-- The body of the inner `matches.forEach` (lines 303–336) for one raw match. -/
def processMatch (fm : List (String × Nat)) (p : Nat) (m : String) : List (String × Nat) :=
  let cleaned := cleanedOf m
  if ¬ cleaned.any Char.isDigit then fm
  else
    let digits := cleaned.filter Char.isDigit
    if (1 ≤ digits.length ∧ digits.length ≤ 2) ∧ natOfDigits digits ≤ 5 ∧ 4 ≤ p then fm
    else
      let numericPart := cleaned.filter numericChar
      if numericPart.length > 0 then
        if parseFloatFinite (firstCommaToDot (commaGroupCollapse numericPart)) then
          let key := if m.data.any symbolChar then jsTrim m.data else cleaned
          insertMin fm key.asString p
        else fm
      else fm

/-- One iteration of `patterns.forEach` (lines 297–341): a matcher failure is
caught and contributes nothing. -/
def applyPattern (cleanText : String) (fm : List (String × Nat)) (pd : PatternDef) :
    List (String × Nat) :=
  match pd.matcher cleanText with
  | .error _ => fm
  | .ok ms => ms.foldl (fun acc m => processMatch acc pd.priority m) fm

def runPatterns (pats : List PatternDef) (cleanText : String) : List (String × Nat) :=
  pats.foldl (applyPattern cleanText) []

/-! ## Ranker / truncator (lines 344–361) -/

/-- The stripped form `a.replace(/[^\d.,]/g, '')` — the key used for the position lookup. -/
def stripForIndex (s : String) : List Char :=
  s.data.filter (fun c => c.isDigit || c = '.' || c = ',')

/-- JavaScript `text.indexOf(sub)`: first occurrence or `-1`. -/
def jsIndexOf (text sub : List Char) : Int :=
  match (List.range (text.length + 1)).find? (fun i => sub.isPrefixOf (text.drop i)) with
  | some i => (i : Int)
  | none => -1

def lookupPriority (fm : List (String × Nat)) (s : String) : Option Nat :=
  (fm.find? (fun e => e.1 = s)).map (fun e => e.2)

/-- The two sort keys of the comparator on lines 345–357: the stored priority
and the position of the digit-and-separator core in the original text. -/
def rankKey (text : String) (fm : List (String × Nat)) (s : String) : Nat × Int :=
  ((lookupPriority fm s).getD 0, jsIndexOf text.data (stripForIndex s))

/-- The test `comparator(a, b) < 0`: `a` strictly precedes `b`. -/
def sortLtB (key : String → Nat × Int) (a b : String) : Bool :=
  (key a).1 < (key b).1 || ((key a).1 = (key b).1 && (key a).2 < (key b).2)

/-- Stable insertion into a sorted list: the new element goes after every
element it does not strictly precede, as JavaScript's stable `sort` would. -/
def insertSorted (lt : String → String → Bool) (x : String) : List String → List String
  | [] => [x]
  | y :: ys => if lt x y then x :: y :: ys else y :: insertSorted lt x ys

/-- A stable sort of the `Map`'s keys in insertion order; for the consistent
lexicographic comparator of lines 345–357 this is what `Array.sort` returns. -/
def sortTokens (lt : String → String → Bool) (l : List String) : List String :=
  l.foldl (fun acc x => insertSorted lt x acc) []

/-! ## The whole engine (lines 227–361) -/

def extractWithPatterns (pats : List PatternDef) (text : String) : List String :=
  if text.data.isEmpty || (jsTrim text.data).isEmpty then []
  else
    let fm := runPatterns pats (cleanStr text)
    (sortTokens (sortLtB (rankKey text fm)) (fm.map (fun e => e.1))).take 20

def extractNumbersFromText (text : String) : List String :=
  extractWithPatterns patterns text

/-- The resolved pool (the `foundNumbers` map) built for a given input. -/
def resolvedMap (text : String) : List (String × Nat) :=
  runPatterns patterns (cleanStr text)

/-! ## Derived definitions used by the theorems -/

/-- The order the comparator of lines 345–357 actually sorts by: priority
ascending, then position of the stripped token in the source text ascending. -/
def rankLEb (key : String → Nat × Int) (a b : String) : Bool :=
  (key a).1 < (key b).1 || ((key a).1 = (key b).1 && (key a).2 ≤ (key b).2)

/-- Modelled from the spec's Ranker (§4.5): priority ascending, then
`displayText` length descending, then first-occurrence index ascending. -/
def specRankLEb (key : String → Nat × Int) (a b : String) : Bool :=
  (key a).1 < (key b).1 ||
    ((key a).1 = (key b).1 &&
      (b.length < a.length || (a.length = b.length && (key a).2 ≤ (key b).2)))

/-- The candidate a single raw match contributes to the pool after the
normalizer/validator and the magnitude filter — `[]` when it is dropped.
This is the same guard chain as `processMatch`. -/
def survivors (p : Nat) (m : String) : List (String × Nat) :=
  let cleaned := cleanedOf m
  if ¬ cleaned.any Char.isDigit then []
  else
    let digits := cleaned.filter Char.isDigit
    if (1 ≤ digits.length ∧ digits.length ≤ 2) ∧ natOfDigits digits ≤ 5 ∧ 4 ≤ p then []
    else
      let numericPart := cleaned.filter numericChar
      if numericPart.length > 0 then
        if parseFloatFinite (firstCommaToDot (commaGroupCollapse numericPart)) then
          let key := if m.data.any symbolChar then jsTrim m.data else cleaned
          [(key.asString, p)]
        else []
      else []

/-- The contributions of one catalog entry over a text (none when it fails). -/
def contribsOf (pd : PatternDef) (cleanText : String) : List (String × Nat) :=
  match pd.matcher cleanText with
  | .error _ => []
  | .ok ms => (ms.map (survivors pd.priority)).flatten

/-- All `(displayText, priorityClass)` contributions of a catalog over a text. -/
def contributions (pats : List PatternDef) (cleanText : String) : List (String × Nat) :=
  (pats.map (fun pd => contribsOf pd cleanText)).flatten

/-- The conflict resolver in isolation: fold the contributions into the map. -/
def resolvePool (contribs : List (String × Nat)) : List (String × Nat) :=
  contribs.foldl (fun fm e => insertMin fm e.1 e.2) []

/-- The priorities of the contributions for one `displayText`. -/
def prioList (l : List (String × Nat)) (k : String) : List Nat :=
  (l.filter (fun e => e.1 = k)).map (fun e => e.2)

/-- Every character is an ASCII letter, a whitespace character, or a digit. -/
def alphaSpaceDigit (l : List Char) : Prop :=
  ∀ c ∈ l, c.isAlpha = true ∨ jsSpace c = true ∨ c.isDigit = true

/-- No digit is immediately followed by another digit. -/
def noAdjacentDigits (l : List Char) : Prop :=
  List.Chain' (fun a b => ¬(a.isDigit = true ∧ b.isDigit = true)) l

/-- A neighbour that the claim about isolated digits forbids next to a digit:
another digit, a decimal point, a sign, a parenthesis, or a
currency/percent/degree symbol. -/
def claimAdjBad (c : Char) : Bool :=
  c.isDigit || c = '.' || c = '-' || c = '+' || c = '(' || c = ')' || symbolChar c

/-- Every digit is isolated in the sense of the claim: neither neighbour is a
digit, a decimal point, a sign, a parenthesis, or a currency/percent/degree
symbol. -/
def claimIsolatedDigits (l : List Char) : Prop :=
  List.Chain' (fun a b =>
    ¬(a.isDigit = true ∧ claimAdjBad b = true) ∧ ¬(claimAdjBad a = true ∧ b.isDigit = true)) l

/-- A catalog entry whose match step always fails at runtime. -/
def badPattern : PatternDef := ⟨"Broken", fun _ => .error "bad pattern", 1⟩

/-! # Theorems -/

/-- C4: for every input text, the length of the list returned by
`extractNumbersFromText` is at most the configured cap, which the
implementation fixes at 20 (`results.slice(0, 20)`). -/
theorem C4_output_length_le_cap (text : String) :
    (extractNumbersFromText text).length ≤ 20 := by
  unfold extractNumbersFromText extractWithPatterns
  split
  · simp
  · simp [List.length_take]

/-- C6: an empty or whitespace-only input yields the empty list (the guard of
lines 228–230), and more generally any input whose candidate pool ends up
empty yields the empty list as a normal outcome — the function is total and
never signals an error. -/
theorem C6_blank_input_empty_output :
    (∀ text : String, jsTrim text.data = [] → extractNumbersFromText text = []) ∧
    (∀ text : String, resolvedMap text = [] → extractNumbersFromText text = []) := by
  constructor
  · intro text h
    unfold extractNumbersFromText extractWithPatterns
    simp [h]
  · intro text h
    unfold resolvedMap at h
    unfold extractNumbersFromText extractWithPatterns
    split
    · rfl
    · rw [h]
      rfl

/-- Witness for C6 at the whitespace-only input `"  "`. -/
theorem C6_witness :
    jsTrim "  ".data = [] ∧ extractNumbersFromText "  " = [] :=
  ⟨by decide, C6_blank_input_empty_output.1 "  " (by decide)⟩

/-- C7: if one catalog entry's match step raises a runtime error, the
`try`/`catch` of lines 297–341 skips exactly that entry's contribution: the
output is the one the remaining catalog produces. -/
theorem C7_failing_matcher_skipped (text : String) (l₁ l₂ : List PatternDef)
    (pd : PatternDef) (e : String) (he : pd.matcher (cleanStr text) = .error e) :
    extractWithPatterns (l₁ ++ pd :: l₂) text = extractWithPatterns (l₁ ++ l₂) text := by
  have hrun : runPatterns (l₁ ++ pd :: l₂) (cleanStr text) =
      runPatterns (l₁ ++ l₂) (cleanStr text) := by
    unfold runPatterns
    rw [List.foldl_append, List.foldl_append, List.foldl_cons]
    congr 1
    unfold applyPattern
    rw [he]
  unfold extractWithPatterns
  rw [hrun]

/-- Witness for C7: a failing catalog entry inserted in front of the real
catalog changes nothing about the output. -/
theorem C7_witness :
    badPattern.matcher (cleanStr "7 apples and 42") = .error "bad pattern" ∧
    extractWithPatterns ([] ++ badPattern :: patterns) "7 apples and 42" =
      extractWithPatterns ([] ++ patterns) "7 apples and 42" :=
  ⟨rfl, C7_failing_matcher_skipped "7 apples and 42" [] patterns badPattern "bad pattern" rfl⟩

/-- C2 (amended): the magnitude filter of lines 315–317 discards a candidate
exactly under the code's test: its digit core spells one or two digits, its
numeric value is at most 5 (so in particular any such candidate with value
≤ 3), and the pattern's priority class is ≥ 4.  A three-or-more-digit spelling
of a small value (such as `"003"`) is not discarded. -/
theorem C2_magnitude_filter_discards_short_low_values
    (fm : List (String × Nat)) (p : Nat) (m : String)
    (h1 : 1 ≤ ((cleanedOf m).filter Char.isDigit).length)
    (h2 : ((cleanedOf m).filter Char.isDigit).length ≤ 2)
    (h3 : natOfDigits ((cleanedOf m).filter Char.isDigit) ≤ 5)
    (h4 : 4 ≤ p) :
    processMatch fm p m = fm := by
  unfold processMatch
  by_cases hd : (cleanedOf m).any Char.isDigit
  · simp only [hd, not_true_eq_false, if_false]
    rw [if_pos ⟨⟨h1, h2⟩, h3, h4⟩]
  · simp [hd]

/-- Witness for C2 at the match `"04"` with priority 4: the candidate is
discarded. -/
theorem C2_witness :
    (1 ≤ ((cleanedOf "04").filter Char.isDigit).length ∧
      ((cleanedOf "04").filter Char.isDigit).length ≤ 2 ∧
      natOfDigits ((cleanedOf "04").filter Char.isDigit) ≤ 5) ∧
    processMatch [] 4 "04" = [] :=
  ⟨⟨by decide, by decide, by decide⟩,
    C2_magnitude_filter_discards_short_low_values [] 4 "04"
      (by decide) (by decide) (by decide) (by decide)⟩

/-- Counterexample to C2 as stated: `"003"` is produced only by the
priority-4 short-whole-number pattern and its numeric value is 3 ≤ 3, yet it
appears in the output — the filter of line 315 only fires when the digit core
has one or two characters, and `"003"` has three. -/
theorem C2_counterexample_three_digit_small_value :
    extractNumbersFromText "a 003 b" = ["003"] ∧
    lookupPriority (resolvedMap "a 003 b") "003" = some 4 ∧
    natOfDigits ("003".data.filter Char.isDigit) ≤ 3 := by
  refine ⟨by decide, by decide, by decide⟩

/-- Counterexample to C3 as stated: on `"1000 and 1,000 items"` the value one
thousand is emitted twice, once as `"1,000"` and once as `"1000"` — the
deduplicating map is keyed by the exact display string, so the two spellings
are distinct keys (the third token is the `"000"` fragment of `"1,000"`
matched by the 2–3-digit pattern). -/
theorem C3_counterexample_both_forms_emitted :
    extractNumbersFromText "1000 and 1,000 items" = ["1,000", "1000", "000"] := by
  decide

/-- Counterexample to C1 as stated: on `"12 345"` both tokens have priority
class 4 and the spec's three-key order demands the longer `"345"` first, but
the comparator of lines 345–357 has no length key and emits `"12"` first. -/
theorem C1_counterexample_no_length_key :
    ¬ List.Pairwise
        (fun a b => specRankLEb (rankKey "12 345" (resolvedMap "12 345")) a b = true)
        (extractNumbersFromText "12 345") := by
  decide

/-- Counterexample to C10 as stated: in `"$ 7"` the digit is isolated in the
claim's sense (its only neighbour is a space), yet the currency pattern
`[$€£¥₹]\s*\d{1,3}…` matches across the whitespace and the output is not
empty. -/
theorem C10_counterexample_currency_space_digit :
    claimIsolatedDigits "$ 7".data ∧ extractNumbersFromText "$ 7" = ["$ 7"] := by
  constructor
  · unfold claimIsolatedDigits
    rw [show "$ 7".data = ['$', ' ', '7'] from rfl]
    exact List.chain'_cons.mpr ⟨by decide, List.chain'_cons.mpr ⟨by decide, List.chain'_singleton _⟩⟩
  · decide

/-- C8: when a raw match carries a semantic symbol (`/[$€£¥₹%°]/`, line 326)
and passes validation, the key retained for the pool is the original matched
text (trimmed), not the stripped numeric core; concretely, input containing
`"$1,234.56"` yields the output token `"$1,234.56"` verbatim and the bare
`"1234.56"` never appears. -/
theorem C8_symbol_matches_keep_original_text :
    (∀ (fm : List (String × Nat)) (p : Nat) (m : String),
      m.data.any symbolChar = true →
      (cleanedOf m).any Char.isDigit = true →
      ¬((1 ≤ ((cleanedOf m).filter Char.isDigit).length ∧
          ((cleanedOf m).filter Char.isDigit).length ≤ 2) ∧
        natOfDigits ((cleanedOf m).filter Char.isDigit) ≤ 5 ∧ 4 ≤ p) →
      parseFloatFinite (testNumberOf m) = true →
      processMatch fm p m = insertMin fm (jsTrim m.data).asString p) ∧
    "$1,234.56" ∈ extractNumbersFromText "total $1,234.56 due" ∧
    "1234.56" ∉ extractNumbersFromText "total $1,234.56 due" := by
  refine ⟨?_, by decide, by decide⟩
  intro fm p m hsym hdig hskip hpf
  unfold testNumberOf at hpf
  have hnum : 0 < ((cleanedOf m).filter numericChar).length := by
    obtain ⟨c, hc, hcd⟩ := List.any_eq_true.mp hdig
    have hmem : c ∈ (cleanedOf m).filter numericChar :=
      List.mem_filter.mpr ⟨hc, by simp [numericChar, hcd]⟩
    exact List.length_pos.mpr (List.ne_nil_of_mem hmem)
  unfold processMatch
  rw [if_neg (by simp [hdig]), if_neg hskip, if_pos hnum, if_pos hpf, if_pos hsym]

/-- Witness for C8 at the raw currency match `"$1,234.56"`. -/
theorem C8_witness :
    ("$1,234.56" : String).data.any symbolChar = true ∧
    processMatch [] 1 "$1,234.56" = insertMin [] (jsTrim "$1,234.56".data).asString 1 :=
  ⟨by decide,
    C8_symbol_matches_keep_original_text.1 [] 1 "$1,234.56"
      (by decide) (by decide) (by decide) (by decide)⟩

/-! ## Lemmas about the conflict resolver -/

theorem processMatch_eq_fold_survivors (fm : List (String × Nat)) (p : Nat) (m : String) :
    processMatch fm p m = (survivors p m).foldl (fun acc e => insertMin acc e.1 e.2) fm := by
  unfold processMatch survivors
  dsimp only
  split_ifs <;> rfl

theorem foldl_processMatch_eq (p : Nat) (ms : List String) (fm : List (String × Nat)) :
    ms.foldl (fun acc m => processMatch acc p m) fm =
      ((ms.map (survivors p)).flatten).foldl (fun acc e => insertMin acc e.1 e.2) fm := by
  induction ms generalizing fm with
  | nil => rfl
  | cons m ms ih =>
    simp only [List.map_cons, List.flatten_cons, List.foldl_cons, List.foldl_append]
    rw [processMatch_eq_fold_survivors]
    exact ih _

theorem applyPattern_eq_fold (ct : String) (fm : List (String × Nat)) (pd : PatternDef) :
    applyPattern ct fm pd = (contribsOf pd ct).foldl (fun acc e => insertMin acc e.1 e.2) fm := by
  unfold applyPattern contribsOf
  cases h : pd.matcher ct with
  | error e => rfl
  | ok ms => exact foldl_processMatch_eq pd.priority ms fm

theorem runPatterns_eq_fold (pats : List PatternDef) (ct : String) (fm : List (String × Nat)) :
    pats.foldl (applyPattern ct) fm =
      (contributions pats ct).foldl (fun acc e => insertMin acc e.1 e.2) fm := by
  induction pats generalizing fm with
  | nil => rfl
  | cons pd pats ih =>
    simp only [contributions, List.map_cons, List.flatten_cons, List.foldl_cons,
      List.foldl_append]
    rw [applyPattern_eq_fold]
    exact ih _

/-- Updating the pool entries for key `k` commutes with `find?` for key `k`. -/
theorem find_map_upd (fm : List (String × Nat)) (k : String) (p : Nat) :
    (fm.map (fun e => if e.1 = k then (e.1, if p < e.2 then p else e.2) else e)).find?
        (fun e => e.1 = k) =
      (fm.find? (fun e => e.1 = k)).map (fun e => (e.1, if p < e.2 then p else e.2)) := by
  induction fm with
  | nil => rfl
  | cons e fm ih =>
    by_cases he : e.1 = k
    · simp [List.find?_cons, he, ih]
    · simp [List.find?_cons, he, ih]

theorem find_map_upd_ne (fm : List (String × Nat)) (k k' : String) (p : Nat) (hne : k' ≠ k) :
    (fm.map (fun e => if e.1 = k then (e.1, if p < e.2 then p else e.2) else e)).find?
        (fun e => e.1 = k') =
      fm.find? (fun e => e.1 = k') := by
  induction fm with
  | nil => rfl
  | cons e fm ih =>
    by_cases he : e.1 = k
    · simp [List.find?_cons, he, Ne.symm hne, ih]
    · by_cases he' : e.1 = k'
      · simp [List.find?_cons, he, he', hne]
      · simp [List.find?_cons, he, he', ih]

theorem lookup_insertMin_self (fm : List (String × Nat)) (k : String) (p : Nat) :
    lookupPriority (insertMin fm k p) k =
      some ((lookupPriority fm k).elim p (fun q => min q p)) := by
  unfold insertMin lookupPriority
  by_cases hany : fm.any (fun e => e.1 = k)
  · rw [if_pos hany, find_map_upd]
    cases hf : fm.find? (fun e => decide (e.1 = k)) with
    | none =>
      obtain ⟨e, hmem, he⟩ := List.any_eq_true.mp hany
      exact absurd he (by simpa using List.find?_eq_none.mp hf e hmem)
    | some e' =>
      refine congrArg some ?_
      show (if p < e'.2 then p else e'.2) = min e'.2 p
      rw [Nat.min_def]
      split <;> split <;> omega
  · rw [if_neg hany]
    have hnone : fm.find? (fun e => decide (e.1 = k)) = none := by
      rw [List.find?_eq_none]
      intro e hmem he
      exact hany (List.any_eq_true.mpr ⟨e, hmem, he⟩)
    rw [List.find?_append, hnone]
    have hk : List.find? (fun e => decide (e.1 = k)) [(k, p)] = some (k, p) := by
      rw [List.find?_cons_of_pos]
      simp
    rw [hk]
    rfl

theorem lookup_insertMin_ne (fm : List (String × Nat)) (k k' : String) (p : Nat)
    (hne : k' ≠ k) :
    lookupPriority (insertMin fm k p) k' = lookupPriority fm k' := by
  unfold insertMin lookupPriority
  by_cases hany : fm.any (fun e => e.1 = k)
  · rw [if_pos hany, find_map_upd_ne fm k k' p hne]
  · rw [if_neg hany, List.find?_append]
    have hn : List.find? (fun e => decide (e.1 = k')) [(k, p)] = none := by
      simp [List.find?_cons, Ne.symm hne]
    rw [hn]
    simp

theorem lookup_fold_insertMin (l : List (String × Nat)) (fm : List (String × Nat))
    (k : String) :
    lookupPriority (l.foldl (fun acc e => insertMin acc e.1 e.2) fm) k =
      (prioList l k).foldl (fun o p => some (o.elim p (fun q => min q p)))
        (lookupPriority fm k) := by
  induction l generalizing fm with
  | nil => rfl
  | cons e rest ih =>
    rw [List.foldl_cons, ih]
    by_cases he : e.1 = k
    · have hp : prioList (e :: rest) k = e.2 :: prioList rest k := by
        simp [prioList, List.filter_cons, he]
      rw [hp, List.foldl_cons]
      rw [he] at *
      rw [lookup_insertMin_self]
    · have hp : prioList (e :: rest) k = prioList rest k := by
        simp [prioList, List.filter_cons, he]
      rw [hp, lookup_insertMin_ne fm e.1 k e.2 (fun h => he h.symm)]

theorem foldl_min_some (ps : List Nat) (a : Nat) :
    ps.foldl (fun o p => some (o.elim p (fun q => min q p))) (some a) =
      some (ps.foldl min a) := by
  induction ps generalizing a with
  | nil => rfl
  | cons p ps ih => simp [List.foldl_cons, ih]

theorem minfold_eq_min? (ps : List Nat) :
    ps.foldl (fun o p => some (o.elim p (fun q => min q p))) none = ps.min? := by
  cases ps with
  | nil => rfl
  | cons p ps =>
    rw [List.foldl_cons]
    simp only [Option.elim_none]
    rw [foldl_min_some]
    rfl

theorem nat_min?_eq_some_iff (ps : List Nat) (p : Nat) :
    ps.min? = some p ↔ p ∈ ps ∧ ∀ q ∈ ps, p ≤ q := by
  exact List.min?_eq_some_iff (fun a => Nat.le_refl a)
    (fun a b => by rw [Nat.min_def]; split <;> simp)
    (fun a b c => Nat.le_min)

theorem lookup_resolvePool_eq_min (l : List (String × Nat)) (k : String) :
    lookupPriority (resolvePool l) k = (prioList l k).min? := by
  unfold resolvePool
  rw [lookup_fold_insertMin]
  rw [show lookupPriority ([] : List (String × Nat)) k = none from rfl]
  exact minfold_eq_min? _

/-- C5: the pool built by `runPatterns` is exactly the fold of `insertMin` over
the individual contributions; the priority retained for a `displayText` is the
minimum priority over all its contributions; and any permutation of the
contributions leaves every retained priority unchanged. -/
theorem C5_resolver_keeps_min_priority :
    (∀ (pats : List PatternDef) (ct : String),
      runPatterns pats ct = resolvePool (contributions pats ct)) ∧
    (∀ (l : List (String × Nat)) (k : String) (p : Nat),
      lookupPriority (resolvePool l) k = some p ↔
        p ∈ prioList l k ∧ ∀ q ∈ prioList l k, p ≤ q) ∧
    (∀ (l l' : List (String × Nat)), l.Perm l' →
      ∀ k, lookupPriority (resolvePool l) k = lookupPriority (resolvePool l') k) := by
  refine ⟨?_, ?_, ?_⟩
  · intro pats ct
    unfold runPatterns resolvePool
    exact runPatterns_eq_fold pats ct []
  · intro l k p
    rw [lookup_resolvePool_eq_min]
    exact nat_min?_eq_some_iff _ p
  · intro l l' hperm k
    rw [lookup_resolvePool_eq_min, lookup_resolvePool_eq_min]
    have hp : (prioList l k).Perm (prioList l' k) := (hperm.filter _).map _
    cases hml : (prioList l k).min? with
    | none =>
      have hnil : prioList l k = [] := by
        cases hpl : prioList l k with
        | nil => rfl
        | cons a as => rw [hpl] at hml; simp [List.min?] at hml
      rw [hnil] at hp
      rw [hp.nil_eq.symm]
      rfl
    | some p =>
      have h1 := (nat_min?_eq_some_iff _ p).mp hml
      exact ((nat_min?_eq_some_iff _ p).mpr
        ⟨hp.mem_iff.mp h1.1, fun q hq => h1.2 q (hp.mem_iff.mpr hq)⟩).symm

/-- Witness for C5: two contributions for the key `"a"` in either order give
the retained priority `1`, the minimum. -/
theorem C5_witness :
    lookupPriority (resolvePool [("a", 3), ("a", 1)]) "a" =
      lookupPriority (resolvePool [("a", 1), ("a", 3)]) "a" ∧
    lookupPriority (resolvePool [("a", 3), ("a", 1)]) "a" = some 1 :=
  ⟨C5_resolver_keeps_min_priority.2.2 _ _ (List.Perm.swap ("a", 1) ("a", 3) []) "a",
    (C5_resolver_keeps_min_priority.2.1 [("a", 3), ("a", 1)] "a" 1).mpr
      ⟨by decide, by decide⟩⟩

/-! ## Lemmas about the ranker -/

theorem sortLtB_false_imp (key : String → Nat × Int) (a b : String)
    (h : sortLtB key a b = false) : rankLEb key b a = true := by
  simp only [sortLtB, Bool.or_eq_false_iff, Bool.and_eq_false_iff,
    decide_eq_false_iff_not] at h
  simp only [rankLEb, Bool.or_eq_true, Bool.and_eq_true, decide_eq_true_eq]
  rcases h with ⟨h1, h2⟩
  rcases h2 with h2 | h2 <;> omega

theorem sortLtB_true_imp (key : String → Nat × Int) (a b : String)
    (h : sortLtB key a b = true) : rankLEb key a b = true := by
  simp only [sortLtB, Bool.or_eq_true, Bool.and_eq_true, decide_eq_true_eq] at h
  simp only [rankLEb, Bool.or_eq_true, Bool.and_eq_true, decide_eq_true_eq]
  rcases h with h | ⟨h1, h2⟩ <;> omega

theorem rankLEb_trans (key : String → Nat × Int) (a b c : String)
    (h1 : rankLEb key a b = true) (h2 : rankLEb key b c = true) :
    rankLEb key a c = true := by
  simp only [rankLEb, Bool.or_eq_true, Bool.and_eq_true, decide_eq_true_eq] at *
  rcases h1 with h1 | ⟨h1, h1'⟩ <;> rcases h2 with h2 | ⟨h2, h2'⟩ <;>
    first | (left; omega) | (right; constructor <;> omega)

theorem mem_insertSorted (lt : String → String → Bool) (x y : String) (l : List String) :
    y ∈ insertSorted lt x l ↔ y = x ∨ y ∈ l := by
  induction l with
  | nil => simp [insertSorted]
  | cons z zs ih =>
    unfold insertSorted
    split
    · simp [List.mem_cons]
    · simp only [List.mem_cons, ih]
      tauto

theorem insertSorted_perm (lt : String → String → Bool) (x : String) (l : List String) :
    (insertSorted lt x l).Perm (x :: l) := by
  induction l with
  | nil => exact List.Perm.refl _
  | cons z zs ih =>
    unfold insertSorted
    split
    · exact List.Perm.refl _
    · exact (ih.cons z).trans (List.Perm.swap x z zs)

theorem sortTokens_perm (lt : String → String → Bool) (l : List String) :
    (sortTokens lt l).Perm l := by
  suffices h : ∀ acc, (l.foldl (fun acc x => insertSorted lt x acc) acc).Perm (l ++ acc) by
    simpa using h []
  induction l with
  | nil => intro acc; simp
  | cons x xs ih =>
    intro acc
    rw [List.foldl_cons]
    refine (ih _).trans ?_
    exact (List.Perm.append_left xs (insertSorted_perm lt x acc)).trans List.perm_middle

theorem pairwise_insertSorted (key : String → Nat × Int) (x : String) (l : List String)
    (hl : l.Pairwise (fun a b => rankLEb key a b = true)) :
    (insertSorted (sortLtB key) x l).Pairwise (fun a b => rankLEb key a b = true) := by
  induction l with
  | nil => simp [insertSorted]
  | cons y ys ih =>
    unfold insertSorted
    rcases List.pairwise_cons.mp hl with ⟨hy, hys⟩
    split
    · rename_i hlt
      refine List.pairwise_cons.mpr ⟨?_, hl⟩
      intro z hz
      rcases List.mem_cons.mp hz with rfl | hz
      · exact sortLtB_true_imp key x z hlt
      · exact rankLEb_trans key x y z (sortLtB_true_imp key x y hlt) (hy z hz)
    · rename_i hnlt
      refine List.pairwise_cons.mpr ⟨?_, ih hys⟩
      intro z hz
      rcases (mem_insertSorted _ x z ys).mp hz with rfl | hz
      · exact sortLtB_false_imp key z y (Bool.eq_false_iff.mpr hnlt)
      · exact hy z hz

theorem pairwise_sortTokens (key : String → Nat × Int) (l : List String) :
    (sortTokens (sortLtB key) l).Pairwise (fun a b => rankLEb key a b = true) := by
  suffices h : ∀ acc, acc.Pairwise (fun a b => rankLEb key a b = true) →
      (l.foldl (fun acc x => insertSorted (sortLtB key) x acc) acc).Pairwise
        (fun a b => rankLEb key a b = true) from h [] (List.Pairwise.nil)
  induction l with
  | nil => intro acc h; exact h
  | cons x xs ih =>
    intro acc h
    rw [List.foldl_cons]
    exact ih _ (pairwise_insertSorted key x acc h)

/-- C1 (amended): the output is ordered by the two keys the comparator of
lines 345–357 actually uses — `priorityClass` ascending, then position of the
stripped token in the source text ascending.  There is no
`displayText`-length key. -/
theorem C1_output_sorted_by_priority_then_position (text : String) :
    (extractNumbersFromText text).Pairwise
      (fun a b => rankLEb (rankKey text (resolvedMap text)) a b = true) := by
  unfold extractNumbersFromText extractWithPatterns
  split
  · exact List.Pairwise.nil
  · exact List.Pairwise.sublist (List.take_sublist _ _) (pairwise_sortTokens _ _)

/-! ## Lemmas about key uniqueness -/

theorem keys_insertMin (fm : List (String × Nat)) (k : String) (p : Nat) :
    (insertMin fm k p).map (fun e => e.1) =
      if fm.any (fun e => e.1 = k) then fm.map (fun e => e.1)
      else fm.map (fun e => e.1) ++ [k] := by
  unfold insertMin
  split
  · rw [List.map_map]
    exact List.map_congr_left (fun e _ => by by_cases h : e.1 = k <;> simp [h])
  · simp

theorem nodup_keys_insertMin (fm : List (String × Nat)) (k : String) (p : Nat)
    (h : (fm.map (fun e => e.1)).Nodup) :
    ((insertMin fm k p).map (fun e => e.1)).Nodup := by
  rw [keys_insertMin]
  split
  · exact h
  · rename_i hany
    refine List.Nodup.append h (List.nodup_singleton k) ?_
    intro a ha hk
    rw [List.mem_singleton] at hk
    subst hk
    obtain ⟨e, he, rfl⟩ := List.mem_map.mp ha
    exact hany (List.any_eq_true.mpr ⟨e, he, by simp⟩)

theorem nodup_keys_processMatch (fm : List (String × Nat)) (p : Nat) (m : String)
    (h : (fm.map (fun e => e.1)).Nodup) :
    ((processMatch fm p m).map (fun e => e.1)).Nodup := by
  rw [processMatch_eq_fold_survivors]
  unfold survivors
  dsimp only
  split_ifs <;> first | exact h | exact nodup_keys_insertMin _ _ _ h

theorem nodup_keys_applyPattern (ct : String) (fm : List (String × Nat)) (pd : PatternDef)
    (h : (fm.map (fun e => e.1)).Nodup) :
    ((applyPattern ct fm pd).map (fun e => e.1)).Nodup := by
  unfold applyPattern
  cases pd.matcher ct with
  | error e => exact h
  | ok ms =>
    induction ms generalizing fm with
    | nil => exact h
    | cons m ms ih => exact ih _ (nodup_keys_processMatch _ _ _ h)

theorem nodup_keys_runPatterns (pats : List PatternDef) (ct : String) :
    ((runPatterns pats ct).map (fun e => e.1)).Nodup := by
  unfold runPatterns
  suffices h : ∀ fm, (fm.map (fun e => e.1)).Nodup →
      ((pats.foldl (applyPattern ct) fm).map (fun e => e.1)).Nodup from
    h [] List.nodup_nil
  induction pats with
  | nil => intro fm h; exact h
  | cons pd pats ih => intro fm h; exact ih _ (nodup_keys_applyPattern ct fm pd h)

/-- C3 (amended): deduplication is by exact display string — the output never
contains duplicate strings — but the two spellings `"1,000"` and `"1000"` of
one thousand are distinct keys, so the input `"1000 and 1,000 items"` emits
each of them exactly once, as separate entries. -/
theorem C3_output_nodup :
    (∀ text : String, (extractNumbersFromText text).Nodup) ∧
    (extractNumbersFromText "1000 and 1,000 items").count "1,000" = 1 ∧
    (extractNumbersFromText "1000 and 1,000 items").count "1000" = 1 := by
  refine ⟨?_, by decide, by decide⟩
  intro text
  unfold extractNumbersFromText extractWithPatterns
  split
  · exact List.nodup_nil
  · refine List.Nodup.sublist (List.take_sublist _ _) ?_
    refine ((sortTokens_perm _ _).nodup_iff).mpr ?_
    exact nodup_keys_runPatterns patterns (cleanStr text)

/-! ## Lemmas about the characters that can reach the output -/

theorem data_asString (l : List Char) : (l.asString).data = l := rfl

theorem digit_not_alpha (c : Char) (h : c.isDigit = true) : c.isAlpha = false := by
  simp only [Char.isDigit, Bool.and_eq_true, decide_eq_true_eq] at h
  obtain ⟨h1, h2⟩ := h
  have e57 : ((57 : UInt32).toBitVec).toNat = 57 := rfl
  rw [UInt32.le_def, BitVec.le_def, e57] at h2
  simp only [Char.isAlpha, Char.isUpper, Char.isLower, Bool.or_eq_false_iff,
    Bool.and_eq_false_iff, decide_eq_false_iff_not]
  have e65 : ((65 : UInt32).toBitVec).toNat = 65 := rfl
  have e97 : ((97 : UInt32).toBitVec).toNat = 97 := rfl
  refine ⟨Or.inl ?_, Or.inl ?_⟩
  · intro hc
    rw [ge_iff_le, UInt32.le_def, BitVec.le_def, e65] at hc
    omega
  · intro hc
    rw [ge_iff_le, UInt32.le_def, BitVec.le_def, e97] at hc
    omega

theorem mem_clean_map (l : List Char) (c : Char)
    (h : c ∈ l.map (fun c => if allowedChar c then c else ' ')) :
    c = ' ' ∨ allowedChar c = true := by
  obtain ⟨d, _, rfl⟩ := List.mem_map.mp h
  by_cases hd : allowedChar d
  · right; simp [hd]
  · left; simp [hd]

theorem mem_collapseAux (l : List Char) (c : Char) :
    ∀ b, c ∈ collapseAux b l → c = ' ' ∨ (c ∈ l ∧ jsSpace c = false) := by
  induction l with
  | nil => intro b h; simp [collapseAux] at h
  | cons d ds ih =>
    intro b h
    unfold collapseAux at h
    by_cases hd : jsSpace d
    · rw [if_pos hd] at h
      by_cases hb : b
      · rw [if_pos hb] at h
        rcases ih true h with h' | ⟨h1, h2⟩
        · exact Or.inl h'
        · exact Or.inr ⟨List.mem_cons_of_mem _ h1, h2⟩
      · rw [if_neg hb] at h
        rcases List.mem_cons.mp h with rfl | h'
        · exact Or.inl rfl
        · rcases ih true h' with h'' | ⟨h1, h2⟩
          · exact Or.inl h''
          · exact Or.inr ⟨List.mem_cons_of_mem _ h1, h2⟩
    · rw [if_neg hd] at h
      rcases List.mem_cons.mp h with rfl | h'
      · exact Or.inr ⟨List.mem_cons_self _ _, Bool.eq_false_iff.mpr hd⟩
      · rcases ih false h' with h'' | ⟨h1, h2⟩
        · exact Or.inl h''
        · exact Or.inr ⟨List.mem_cons_of_mem _ h1, h2⟩

theorem mem_jsTrim (l : List Char) (c : Char) (h : c ∈ jsTrim l) : c ∈ l := by
  unfold jsTrim at h
  rw [List.mem_reverse] at h
  have h1 := (List.dropWhile_sublist _).subset h
  rw [List.mem_reverse] at h1
  exact (List.dropWhile_sublist _).subset h1

theorem mem_cleanChars (l : List Char) (c : Char) (h : c ∈ cleanChars l) :
    c = ' ' ∨ (allowedChar c = true ∧ jsSpace c = false) := by
  unfold cleanChars collapseWs at h
  have h1 := mem_jsTrim _ _ h
  rcases mem_collapseAux _ c false h1 with h2 | ⟨h2, h3⟩
  · exact Or.inl h2
  · rcases mem_clean_map _ _ h2 with h4 | h4
    · exact Or.inl h4
    · exact Or.inr ⟨h4, h3⟩

theorem clean_char_not_alpha (l : List Char) (c : Char) (h : c ∈ cleanChars l) :
    c.isAlpha = false := by
  rcases mem_cleanChars l c h with rfl | ⟨h1, h2⟩
  · decide
  · simp only [allowedChar, Bool.or_eq_true] at h1
    rcases h1 with (h1 | h1) | h1
    · exact digit_not_alpha c h1
    · rw [h1] at h2; cases h2
    · simp only [List.contains, List.elem_eq_mem, decide_eq_true_eq] at h1
      fin_cases h1 <;> decide

theorem mem_cleanedOf (m : String) (c : Char) (h : c ∈ cleanedOf m) : c ∈ m.data := by
  unfold cleanedOf unwrapParens at h
  split at h
  · have h1 := mem_jsTrim _ _ h
    have h2 := (List.dropLast_sublist _).subset h1
    exact mem_jsTrim _ _ (List.mem_of_mem_drop h2)
  · exact mem_jsTrim _ _ h

theorem mem_keys_insertMin (fm : List (String × Nat)) (k : String) (p : Nat)
    (e : String × Nat) (h : e ∈ insertMin fm k p) :
    (∃ e₀ ∈ fm, e.1 = e₀.1) ∨ e.1 = k := by
  unfold insertMin at h
  split at h
  · obtain ⟨e₀, he₀, hupd⟩ := List.mem_map.mp h
    by_cases hk : e₀.1 = k
    · right; rw [← hupd]; simp [hk]
    · left; exact ⟨e₀, he₀, by rw [← hupd]; simp [hk]⟩
  · rcases List.mem_append.mp h with h | h
    · left; exact ⟨e, h, rfl⟩
    · right; rw [List.mem_singleton] at h; rw [h]

theorem keys_good_processMatch (ct : String) (fm : List (String × Nat)) (p : Nat)
    (m : String) (hm : ∀ c ∈ m.data, c ∈ ct.data)
    (hfm : ∀ e ∈ fm, ∀ c ∈ (e.1 : String).data, c ∈ ct.data) :
    ∀ e ∈ processMatch fm p m, ∀ c ∈ (e.1 : String).data, c ∈ ct.data := by
  intro e he c hc
  rw [processMatch_eq_fold_survivors] at he
  unfold survivors at he
  dsimp only at he
  split_ifs at he
  all_goals
    first
    | exact hfm e he c hc
    | (rcases mem_keys_insertMin fm _ p e he with ⟨e₀, he₀, hk⟩ | hk
       <;> first
       | exact hfm e₀ he₀ c (hk ▸ hc)
       | (rw [hk, data_asString] at hc
          first
          | exact hm c (mem_jsTrim _ _ hc)
          | exact hm c (mem_cleanedOf m c hc)))

theorem reMatches_chars (re : RE) (l : List Char) (m : String)
    (hm : m ∈ reMatches re l) : ∀ c ∈ m.data, c ∈ l := by
  unfold reMatches at hm
  obtain ⟨q, _, rfl⟩ := List.mem_map.mp hm
  intro c hc
  rw [data_asString] at hc
  exact List.mem_of_mem_drop (List.mem_of_mem_take hc)

theorem patterns_matcher_good (pd : PatternDef) (hpd : pd ∈ patterns) (ct : String)
    (ms : List String) (h : pd.matcher ct = .ok ms) :
    ∀ m ∈ ms, ∀ c ∈ m.data, c ∈ ct.data := by
  unfold patterns at hpd
  fin_cases hpd <;>
    · simp only at h
      injection h with h
      subst h
      intro m hm
      exact reMatches_chars _ _ m hm

theorem keys_good_fold (ct : String) (p : Nat) (ms : List String)
    (hms : ∀ m ∈ ms, ∀ c ∈ m.data, c ∈ ct.data) :
    ∀ fm, (∀ e ∈ fm, ∀ c ∈ (e.1 : String).data, c ∈ ct.data) →
    ∀ e ∈ ms.foldl (fun acc m => processMatch acc p m) fm,
      ∀ c ∈ (e.1 : String).data, c ∈ ct.data := by
  induction ms with
  | nil => intro fm hfm; exact hfm
  | cons m ms ih =>
    intro fm hfm
    rw [List.foldl_cons]
    exact ih (fun m' hm' => hms m' (List.mem_cons_of_mem _ hm')) _
      (keys_good_processMatch ct fm p m (hms m (List.mem_cons_self _ _)) hfm)

theorem keys_good_applyPattern (ct : String) (fm : List (String × Nat))
    (pd : PatternDef) (hpd : pd ∈ patterns)
    (hfm : ∀ e ∈ fm, ∀ c ∈ (e.1 : String).data, c ∈ ct.data) :
    ∀ e ∈ applyPattern ct fm pd, ∀ c ∈ (e.1 : String).data, c ∈ ct.data := by
  unfold applyPattern
  cases h : pd.matcher ct with
  | error e => exact hfm
  | ok ms => exact keys_good_fold ct pd.priority ms (patterns_matcher_good pd hpd ct ms h) fm hfm

theorem keys_good_resolvedMap (text : String) :
    ∀ e ∈ resolvedMap text, ∀ c ∈ (e.1 : String).data, c ∈ (cleanStr text).data := by
  unfold resolvedMap runPatterns
  suffices h : ∀ (pats : List PatternDef), (∀ pd ∈ pats, pd ∈ patterns) → ∀ fm,
      (∀ e ∈ fm, ∀ c ∈ (e.1 : String).data, c ∈ (cleanStr text).data) →
      ∀ e ∈ pats.foldl (applyPattern (cleanStr text)) fm,
        ∀ c ∈ (e.1 : String).data, c ∈ (cleanStr text).data by
    exact h patterns (fun _ hq => hq) [] (by simp)
  intro pats
  induction pats with
  | nil => intro _ fm hfm; exact hfm
  | cons pd pats ih =>
    intro hsub fm hfm
    rw [List.foldl_cons]
    exact ih (fun q hq => hsub q (List.mem_cons_of_mem _ hq)) _
      (keys_good_applyPattern _ fm pd (hsub pd (List.mem_cons_self _ _)) hfm)

theorem output_mem_keys (text : String) (s : String)
    (h : s ∈ extractNumbersFromText text) :
    ∃ e ∈ resolvedMap text, e.1 = s := by
  unfold extractNumbersFromText extractWithPatterns at h
  split at h
  · cases h
  · have h1 := List.mem_of_mem_take h
    have h2 := (sortTokens_perm _ _).mem_iff.mp h1
    obtain ⟨e, he, rfl⟩ := List.mem_map.mp h2
    exact ⟨e, he, rfl⟩

/-- C9: the cleaning step replaces every character outside the allowed class
with a space before matching, so no output token ever contains an alphabetic
character; in particular `"25°C"` can yield at most `"25°"`, never `"25°C"`. -/
theorem C9_no_alpha_in_output :
    (∀ (text s : String), s ∈ extractNumbersFromText text →
      ∀ c ∈ s.data, c.isAlpha = false) ∧
    "25°" ∈ extractNumbersFromText "25°C" ∧
    "25°C" ∉ extractNumbersFromText "25°C" := by
  refine ⟨?_, by decide, by decide⟩
  intro text s hs c hc
  obtain ⟨e, he, rfl⟩ := output_mem_keys text s hs
  have h1 := keys_good_resolvedMap text e he c hc
  exact clean_char_not_alpha text.data c h1

/-- Witness for C9: the token `"25°"` of input `"25°C"` and its first
character `'2'`. -/
theorem C9_witness :
    "25°" ∈ extractNumbersFromText "25°C" ∧ Char.isAlpha '2' = false :=
  ⟨by decide, C9_no_alpha_in_output.1 "25°C" "25°" (by decide) '2' (by decide)⟩

/-! ## Lemmas for inputs made of letters, whitespace and isolated digits -/

theorem alpha_not_allowed (c : Char) (h : c.isAlpha = true) : allowedChar c = false := by
  by_contra hc
  rw [Bool.not_eq_false] at hc
  simp only [allowedChar, Bool.or_eq_true] at hc
  rcases hc with (hc | hc) | hc
  · rw [digit_not_alpha c hc] at h; cases h
  · simp only [jsSpace, jsSpaceChars, List.contains, List.elem_eq_mem, decide_eq_true_eq] at hc
    fin_cases hc <;> exact absurd h (by decide)
  · simp only [List.contains, List.elem_eq_mem, decide_eq_true_eq] at hc
    fin_cases hc <;> exact absurd h (by decide)

theorem mem_clean_map_orig (l : List Char) (c : Char)
    (h : c ∈ l.map (fun c => if allowedChar c then c else ' ')) :
    c = ' ' ∨ c ∈ l := by
  obtain ⟨d, hd, rfl⟩ := List.mem_map.mp h
  by_cases had : allowedChar d
  · right; simpa [had] using hd
  · left; simp [had]

theorem clean_chars_digit_or_space (l : List Char) (halpha : alphaSpaceDigit l) :
    ∀ c ∈ cleanChars l, c.isDigit = true ∨ c = ' ' := by
  intro c hc
  rcases mem_cleanChars l c hc with rfl | ⟨h1, h2⟩
  · exact Or.inr rfl
  · left
    unfold cleanChars collapseWs at hc
    have h3 := mem_jsTrim _ _ hc
    rcases mem_collapseAux _ c false h3 with rfl | ⟨h4, _⟩
    · exact absurd h2 (by decide)
    · rcases mem_clean_map_orig _ _ h4 with rfl | h5
      · exact absurd h2 (by decide)
      · rcases halpha c h5 with h6 | h6 | h6
        · rw [alpha_not_allowed c h6] at h1; cases h1
        · rw [h6] at h2; cases h2
        · exact h6

theorem chain_nad_map_clean (l : List Char) (h : noAdjacentDigits l) :
    noAdjacentDigits (l.map (fun c => if allowedChar c then c else ' ')) := by
  unfold noAdjacentDigits at *
  rw [List.chain'_map]
  refine h.imp ?_
  intro a b hab hfab
  apply hab
  obtain ⟨ha, hb⟩ := hfab
  constructor
  · by_cases h' : allowedChar a
    · rwa [if_pos h'] at ha
    · rw [if_neg h'] at ha; exact absurd ha (by decide)
  · by_cases h' : allowedChar b
    · rwa [if_pos h'] at hb
    · rw [if_neg h'] at hb; exact absurd hb (by decide)

theorem collapse_head (cs : List Char) (d : Char)
    (h : (collapseAux false cs).head? = some d) : d = ' ' ∨ cs.head? = some d := by
  cases cs with
  | nil => simp [collapseAux] at h
  | cons e es =>
    unfold collapseAux at h
    by_cases he : jsSpace e
    · rw [if_pos he, if_neg (by simp)] at h
      simp only [List.head?_cons, Option.some.injEq] at h
      exact Or.inl h.symm
    · rw [if_neg he] at h
      simp only [List.head?_cons, Option.some.injEq] at h
      rw [List.head?_cons, h]
      exact Or.inr rfl

theorem collapse_preserves_nad (l : List Char) (h : noAdjacentDigits l) :
    ∀ b, noAdjacentDigits (collapseAux b l) := by
  unfold noAdjacentDigits at *
  induction l with
  | nil => intro b; simp [collapseAux]
  | cons d ds ih =>
    intro b
    have htail := (List.chain'_cons'.mp h).2
    have hhead := (List.chain'_cons'.mp h).1
    unfold collapseAux
    by_cases hd : jsSpace d
    · rw [if_pos hd]
      by_cases hb : b
      · rw [if_pos hb]; exact ih htail true
      · rw [if_neg hb]
        refine List.chain'_cons'.mpr ⟨?_, ih htail true⟩
        intro y _ hy2
        exact absurd hy2.1 (by decide)
    · rw [if_neg hd]
      refine List.chain'_cons'.mpr ⟨?_, ih htail false⟩
      intro y hy
      rcases collapse_head ds y hy with rfl | hy'
      · intro hy2; exact absurd hy2.2 (by decide)
      · exact hhead y hy'

theorem dropWhile_preserves_chain {R : Char → Char → Prop} (p : Char → Bool) (l : List Char)
    (h : List.Chain' R l) : List.Chain' R (l.dropWhile p) := by
  induction l with
  | nil => exact h
  | cons d ds ih =>
    rw [List.dropWhile_cons]
    split
    · exact ih (List.Chain'.tail h)
    · exact h

theorem reverse_preserves_nad (l : List Char) (h : noAdjacentDigits l) :
    noAdjacentDigits l.reverse := by
  unfold noAdjacentDigits at *
  rw [List.chain'_reverse]
  refine h.imp ?_
  intro a b hab hf
  exact hab ⟨hf.2, hf.1⟩

theorem jsTrim_preserves_nad (l : List Char) (h : noAdjacentDigits l) :
    noAdjacentDigits (jsTrim l) := by
  unfold jsTrim
  exact reverse_preserves_nad _
    (dropWhile_preserves_chain _ _ (reverse_preserves_nad _ (dropWhile_preserves_chain _ _ h)))

theorem cleanChars_nad (l : List Char) (h : noAdjacentDigits l) :
    noAdjacentDigits (cleanChars l) := by
  unfold cleanChars collapseWs
  exact jsTrim_preserves_nad _ (collapse_preserves_nad _ (chain_nad_map_clean l h) false)

/-! ## No-match lemmas for the engine -/

theorem reEnds_zero (s : List Char) (re : RE) (i : Nat) : reEnds s 0 re i = [] := rfl

theorem reEnds_cls_eq (s : List Char) (p : Char → Bool) (f i : Nat) :
    reEnds s (f + 1) (.cls p) i =
      if hlt : i < s.length then (if p (s.get ⟨i, hlt⟩) then [i + 1] else []) else [] := rfl

theorem reEnds_seq_eq (s : List Char) (a b : RE) (f i : Nat) :
    reEnds s (f + 1) (.seq a b) i =
      ((reEnds s f a i).map (fun j => reEnds s f b j)).flatten := rfl

theorem reEnds_rep_none_eq (s : List Char) (a : RE) (mn : Nat) (f i : Nat) :
    reEnds s (f + 1) (.rep a mn none) i =
      (if mn = 0 then
        ((reEnds s f a i).map (fun j => reEnds s f (.rep a (mn - 1) none) j)).flatten ++ [i]
      else
        ((reEnds s f a i).map (fun j => reEnds s f (.rep a (mn - 1) none) j)).flatten) := rfl

theorem reEnds_rep_some_zero_eq (s : List Char) (a : RE) (mn : Nat) (f i : Nat) :
    reEnds s (f + 1) (.rep a mn (some 0)) i = if mn = 0 then [i] else [] := rfl

theorem reEnds_rep_some_succ_eq (s : List Char) (a : RE) (mn m : Nat) (f i : Nat) :
    reEnds s (f + 1) (.rep a mn (some (m + 1))) i =
      (if mn = 0 then
        ((reEnds s f a i).map (fun j => reEnds s f (.rep a (mn - 1) (some m)) j)).flatten ++ [i]
      else
        ((reEnds s f a i).map (fun j => reEnds s f (.rep a (mn - 1) (some m)) j)).flatten) := rfl

theorem flatten_map_nil {α β : Type} (l : List α) (f : α → List β)
    (h : ∀ x, f x = []) : (l.map f).flatten = [] := by
  induction l with
  | nil => rfl
  | cons x xs ih => simp [h, ih]

theorem reEnds_cls_nil (s : List Char) (p : Char → Bool)
    (h : ∀ c ∈ s, p c = false) : ∀ f i, reEnds s f (.cls p) i = [] := by
  intro f i
  cases f with
  | zero => rfl
  | succ f =>
    rw [reEnds_cls_eq]
    split
    · rename_i hi
      rw [h _ (List.get_mem s i hi)]
      simp
    · rfl

theorem reEnds_seq_nil_left (s : List Char) (a b : RE)
    (h : ∀ f j, reEnds s f a j = []) : ∀ f i, reEnds s f (.seq a b) i = [] := by
  intro f i
  cases f with
  | zero => rfl
  | succ f =>
    rw [reEnds_seq_eq, h]
    rfl

theorem reEnds_seq_nil_right (s : List Char) (a b : RE)
    (h : ∀ f j, reEnds s f b j = []) : ∀ f i, reEnds s f (.seq a b) i = [] := by
  intro f i
  cases f with
  | zero => rfl
  | succ f =>
    rw [reEnds_seq_eq]
    exact flatten_map_nil _ _ (fun j => h f j)

theorem reEnds_rep_nil_at (s : List Char) (a : RE) (mn : Nat) (mx : Option Nat) (j : Nat)
    (hmn : 1 ≤ mn) (h : ∀ f, reEnds s f a j = []) :
    ∀ f, reEnds s f (.rep a mn mx) j = [] := by
  intro f
  have hmn0 : ¬ (mn = 0) := by omega
  cases f with
  | zero => rfl
  | succ f =>
    rcases mx with _ | m
    · rw [reEnds_rep_none_eq, if_neg hmn0, h f]
      rfl
    · rcases m with _ | m
      · rw [reEnds_rep_some_zero_eq, if_neg hmn0]
      · rw [reEnds_rep_some_succ_eq, if_neg hmn0, h f]
        rfl

theorem reEnds_rep_nil (s : List Char) (a : RE) (mn : Nat) (mx : Option Nat)
    (hmn : 1 ≤ mn) (h : ∀ f j, reEnds s f a j = []) :
    ∀ f i, reEnds s f (.rep a mn mx) i = [] :=
  fun f i => reEnds_rep_nil_at s a mn mx i hmn (fun f' => h f' i) f

theorem nad_get (s : List Char) (h : noAdjacentDigits s) (i : Nat)
    (h1 : i + 1 < s.length) (hd : (s.get ⟨i, by omega⟩).isDigit = true) :
    (s.get ⟨i + 1, h1⟩).isDigit = false := by
  unfold noAdjacentDigits at h
  rw [List.chain'_iff_get] at h
  have h2 := h i (by omega)
  by_contra hc
  rw [Bool.not_eq_false] at hc
  exact h2 ⟨hd, hc⟩

theorem reEnds_digit_after_digit (s : List Char) (hnad : noAdjacentDigits s)
    (i : Nat) (hi : i < s.length) (hd : (s.get ⟨i, hi⟩).isDigit = true) :
    ∀ f, reEnds s f digitC (i + 1) = [] := by
  intro f
  cases f with
  | zero => rfl
  | succ f =>
    unfold digitC
    rw [reEnds_cls_eq]
    split
    · rename_i h1
      rw [nad_get s hnad i h1 hd]
      simp
    · rfl

theorem rep_digit_tails_nil (s : List Char) (hnad : noAdjacentDigits s)
    (mn : Nat) (hmn : 2 ≤ mn) (i : Nat) (mx' : Option Nat) :
    ∀ f, ((reEnds s f digitC i).map
      (fun j => reEnds s f (.rep digitC (mn - 1) mx') j)).flatten = [] := by
  intro f
  cases f with
  | zero => rfl
  | succ f =>
    by_cases hi : i < s.length
    · by_cases hd : (s.get ⟨i, hi⟩).isDigit = true
      · rw [show reEnds s (f + 1) digitC i = [i + 1] from by
          unfold digitC; rw [reEnds_cls_eq, dif_pos hi, hd]; rfl]
        simp only [List.map_cons, List.map_nil, List.flatten_cons, List.flatten_nil,
          List.append_nil]
        exact reEnds_rep_nil_at s digitC (mn - 1) mx' (i + 1) (by omega)
          (reEnds_digit_after_digit s hnad i hi hd) (f + 1)
      · rw [show reEnds s (f + 1) digitC i = [] from by
          unfold digitC
          rw [reEnds_cls_eq, dif_pos hi, Bool.eq_false_iff.mpr hd]
          rfl]
        rfl
    · rw [show reEnds s (f + 1) digitC i = [] from by
        unfold digitC; rw [reEnds_cls_eq, dif_neg hi]]
      rfl

theorem reEnds_rep_digit2_nil (s : List Char) (hnad : noAdjacentDigits s)
    (mn : Nat) (mx : Option Nat) (hmn : 2 ≤ mn) :
    ∀ f i, reEnds s f (.rep digitC mn mx) i = [] := by
  intro f i
  have hmn0 : ¬ (mn = 0) := by omega
  cases f with
  | zero => rfl
  | succ f =>
    rcases mx with _ | m
    · rw [reEnds_rep_none_eq, if_neg hmn0]
      exact rep_digit_tails_nil s hnad mn hmn i none f
    · rcases m with _ | m
      · rw [reEnds_rep_some_zero_eq, if_neg hmn0]
      · rw [reEnds_rep_some_succ_eq, if_neg hmn0]
        exact rep_digit_tails_nil s hnad mn hmn i (some m) f

theorem reMatches_nil (re : RE) (s : List Char)
    (h : ∀ f i, reEnds s f re i = []) : reMatches re s = [] := by
  unfold reMatches findAll
  suffices hf : ∀ fuel i, findAllFrom s re i fuel = [] by rw [hf]; rfl
  intro fuel
  induction fuel with
  | zero => intro i; rfl
  | succ fuel ih =>
    intro i
    unfold findAllFrom
    split
    · rfl
    · rw [show reMatchAt s re i = none from by unfold reMatchAt; rw [h]; rfl]
      exact ih (i + 1)

theorem ds_class_false (c : Char) (h : c.isDigit = true ∨ c = ' ') :
    currencyChar c = false ∧ decide (c = '%') = false ∧ decide (c = '°') = false ∧
    decide (c = ',') = false ∧ decide (c = '.') = false ∧ decide (c = '(') = false ∧
    (decide (c = '+') || decide (c = '-')) = false := by
  rcases h with h | rfl
  · refine ⟨?_, ?_, ?_, ?_, ?_, ?_, ?_⟩
    · by_contra hc
      rw [Bool.not_eq_false] at hc
      simp only [currencyChar, List.contains, List.elem_eq_mem, decide_eq_true_eq] at hc
      fin_cases hc <;> exact absurd h (by decide)
    · simp only [decide_eq_false_iff_not]
      intro hc; exact absurd (hc ▸ h) (by decide)
    · simp only [decide_eq_false_iff_not]
      intro hc; exact absurd (hc ▸ h) (by decide)
    · simp only [decide_eq_false_iff_not]
      intro hc; exact absurd (hc ▸ h) (by decide)
    · simp only [decide_eq_false_iff_not]
      intro hc; exact absurd (hc ▸ h) (by decide)
    · simp only [decide_eq_false_iff_not]
      intro hc; exact absurd (hc ▸ h) (by decide)
    · simp only [Bool.or_eq_false_iff, decide_eq_false_iff_not]
      exact ⟨fun hc => absurd (hc ▸ h) (by decide), fun hc => absurd (hc ▸ h) (by decide)⟩
  · decide

/-- C10 (amended): for an input made only of letters, whitespace and digits in
which no digit is adjacent to another digit, no pattern of the catalog matches
anything and the output is empty.  (The original claim's adjacency-only
condition is not enough: symbol-bearing patterns match across whitespace, see
the counterexample `"$ 7"`; so the symbol, sign, parenthesis, comma and dot
characters must be absent altogether.) -/
theorem C10_isolated_digits_yield_empty (text : String)
    (halpha : alphaSpaceDigit text.data) (hadj : noAdjacentDigits text.data) :
    extractNumbersFromText text = [] := by
  have hds : ∀ c ∈ (cleanStr text).data, c.isDigit = true ∨ c = ' ' :=
    fun c hc => clean_chars_digit_or_space text.data halpha c hc
  have hnad : noAdjacentDigits (cleanStr text).data := cleanChars_nad text.data hadj
  have hcur : ∀ f i, reEnds (cleanStr text).data f currencyRE i = [] := by
    unfold currencyRE
    exact reEnds_seq_nil_left _ _ _
      (reEnds_cls_nil _ currencyChar (fun c hc => (ds_class_false c (hds c hc)).1))
  have hpct : ∀ f i, reEnds (cleanStr text).data f percentRE i = [] := by
    unfold percentRE
    refine reEnds_seq_nil_right _ _ _ ?_
    refine reEnds_seq_nil_right _ _ _ ?_
    refine reEnds_seq_nil_right _ _ _ ?_
    exact reEnds_cls_nil _ _ (fun c hc => (ds_class_false c (hds c hc)).2.1)
  have htmp : ∀ f i, reEnds (cleanStr text).data f temperatureRE i = [] := by
    unfold temperatureRE
    refine reEnds_seq_nil_right _ _ _ ?_
    refine reEnds_seq_nil_right _ _ _ ?_
    refine reEnds_seq_nil_right _ _ _ ?_
    refine reEnds_seq_nil_left _ _ _ ?_
    exact reEnds_cls_nil _ _ (fun c hc => (ds_class_false c (hds c hc)).2.2.1)
  have hus : ∀ f i, reEnds (cleanStr text).data f usSepRE i = [] := by
    unfold usSepRE
    refine reEnds_seq_nil_right _ _ _ ?_
    refine reEnds_seq_nil_right _ _ _ ?_
    refine reEnds_seq_nil_left _ _ _ ?_
    refine reEnds_rep_nil _ _ 1 none (Nat.le_refl 1) ?_
    refine reEnds_seq_nil_left _ _ _ ?_
    exact reEnds_cls_nil _ _ (fun c hc => (ds_class_false c (hds c hc)).2.2.2.1)
  have heu : ∀ f i, reEnds (cleanStr text).data f euSepRE i = [] := by
    unfold euSepRE
    refine reEnds_seq_nil_right _ _ _ ?_
    refine reEnds_seq_nil_right _ _ _ ?_
    refine reEnds_seq_nil_left _ _ _ ?_
    refine reEnds_rep_nil _ _ 1 none (Nat.le_refl 1) ?_
    refine reEnds_seq_nil_left _ _ _ ?_
    exact reEnds_cls_nil _ _ (fun c hc => (ds_class_false c (hds c hc)).2.2.2.2.1)
  have hdec : ∀ f i, reEnds (cleanStr text).data f decimalRE i = [] := by
    unfold decimalRE
    refine reEnds_seq_nil_right _ _ _ ?_
    refine reEnds_seq_nil_right _ _ _ ?_
    refine reEnds_seq_nil_left _ _ _ ?_
    exact reEnds_cls_nil _ _ (fun c hc => (ds_class_false c (hds c hc)).2.2.2.2.1)
  have hlrg : ∀ f i, reEnds (cleanStr text).data f largeWholeRE i = [] := by
    unfold largeWholeRE
    refine reEnds_seq_nil_right _ _ _ ?_
    refine reEnds_seq_nil_left _ _ _ ?_
    exact reEnds_rep_digit2_nil _ hnad 4 none (by omega)
  have hmed : ∀ f i, reEnds (cleanStr text).data f mediumRE i = [] := by
    unfold mediumRE
    refine reEnds_seq_nil_right _ _ _ ?_
    refine reEnds_seq_nil_left _ _ _ ?_
    exact reEnds_rep_digit2_nil _ hnad 2 (some 3) (by omega)
  have hpar : ∀ f i, reEnds (cleanStr text).data f parenRE i = [] := by
    unfold parenRE
    exact reEnds_seq_nil_left _ _ _
      (reEnds_cls_nil _ _ (fun c hc => (ds_class_false c (hds c hc)).2.2.2.2.2.1))
  have hsgn : ∀ f i, reEnds (cleanStr text).data f signedRE i = [] := by
    unfold signedRE
    exact reEnds_seq_nil_left _ _ _
      (reEnds_cls_nil _ _ (fun c hc => (ds_class_false c (hds c hc)).2.2.2.2.2.2))
  have hrm : resolvedMap text = [] := by
    unfold resolvedMap runPatterns patterns
    simp only [List.foldl_cons, List.foldl_nil, applyPattern,
      reMatches_nil currencyRE _ hcur, reMatches_nil percentRE _ hpct,
      reMatches_nil temperatureRE _ htmp, reMatches_nil usSepRE _ hus,
      reMatches_nil euSepRE _ heu, reMatches_nil decimalRE _ hdec,
      reMatches_nil largeWholeRE _ hlrg, reMatches_nil mediumRE _ hmed,
      reMatches_nil parenRE _ hpar, reMatches_nil signedRE _ hsgn]
  unfold extractNumbersFromText extractWithPatterns
  split
  · rfl
  · unfold resolvedMap at hrm
    rw [hrm]
    rfl

/-- Witness for C10 at `"a 7 b 9"`: letters, spaces and isolated digits only,
so the output is empty even though 7 and 9 exceed the magnitude threshold. -/
theorem C10_witness :
    extractNumbersFromText "a 7 b 9" = [] :=
  C10_isolated_digits_yield_empty "a 7 b 9"
    (by unfold alphaSpaceDigit; decide)
    (by
      unfold noAdjacentDigits
      rw [show ("a 7 b 9" : String).data = ['a', ' ', '7', ' ', 'b', ' ', '9'] from rfl]
      repeat refine List.chain'_cons.mpr ⟨by decide, ?_⟩
      exact List.chain'_singleton _)

end OcrApp
